import Mathlib

/-!
Verification of the data-explorer session and query-orchestration layer.

The definitions below are a shallow embedding of the TypeScript source:
pure functions are translated to Lean functions over `String` / `List Char`
/ `Nat`, the React `useState` catalog updates are modelled as explicit
state passing, and thrown exceptions are modelled with `Except` / `Option`.
Each definition's doc comment names the source function it embeds.
-/

/-- Character constant: the double-quote character `"` (code 34). -/
def dqc : Char := Char.ofNat 34

/-- Character constant: the newline character (code 10). -/
def nlc : Char := Char.ofNat 10

/-- Character constant: the single-quote character (code 39). -/
def squote : Char := Char.ofNat 39

/-- The double-quote character as a one-character string. -/
def dqStr : String := String.mk [dqc]

/-- The single-quote character as a one-character string. -/
def sqStr : String := String.mk [squote]

/-- `FileFormat` from `types/index.ts`:
`'csv' | 'tsv' | 'parquet' | 'xlsx' | 'xls' | 'json'`. -/
inductive FileFormat
  | csv
  | tsv
  | parquet
  | xlsx
  | xls
  | json
deriving DecidableEq, Repr

/-- `ColumnInfo` from `types/index.ts`: `{name: string, type: string}`. -/
structure ColumnInfo where
  name : String
  colType : String
deriving DecidableEq, Repr

/-- `LoadedFile` from `types/index.ts`:
`{name, tableName, format, columns, rowCount}`. -/
structure LoadedFile where
  name : String
  tableName : String
  format : FileFormat
  columns : List ColumnInfo
  rowCount : Nat
deriving DecidableEq, Repr

/-- Splitting a character list on a separator, with the semantics of
JavaScript's `String.prototype.split` on a one-character separator: the
empty string splits to `[""]`, and consecutive separators produce empty
segments. -/
def splitOnChar (sep : Char) : List Char → List (List Char)
  | [] => [[]]
  | c :: rest =>
    if c = sep then [] :: splitOnChar sep rest
    else
      match splitOnChar sep rest with
      | [] => [[c]]
      | h :: t => (c :: h) :: t

/-- `detectFormat` from `useDuckDB.ts`: lowercase the file name, take the
segment after the last `.` (`split('.').pop()`), and map known extensions
to their format, defaulting to `csv`. -/
def detectFormat (filename : String) : FileFormat :=
  let lowered := filename.toList.map Char.toLower
  let ext := String.mk ((splitOnChar '.' lowered).getLastD [])
  match ext with
  | "csv" => .csv
  | "tsv" => .tsv
  | "parquet" => .parquet
  | "xlsx" => .xlsx
  | "xls" => .xls
  | "json" => .json
  | _ => .csv

/-- The leftmost-match semantics of `filename.replace(/\.[^.]+$/, '')` in
`sanitizeTableName`: walking left to right, the regex matches at a position
holding `.` that is followed by a non-empty dot-free run reaching the end of
the string; the match (which always extends to the end) is replaced by the
empty string. -/
def stripLastExt : List Char → List Char
  | [] => []
  | c :: rest =>
    if c = '.' ∧ rest ≠ [] ∧ rest.all (fun d => d ≠ '.') then []
    else c :: stripLastExt rest

/-- Membership test for the character class `[a-zA-Z0-9_]` used by
`sanitizeTableName`'s second `replace`. -/
def isWordChar (c : Char) : Bool :=
  (decide ('a' ≤ c) && decide (c ≤ 'z')) ||
    (decide ('A' ≤ c) && decide (c ≤ 'Z')) ||
    (decide ('0' ≤ c) && decide (c ≤ '9')) ||
    (c == '_')

/-- The `replace(/^[0-9]/, '_$&')` step of `sanitizeTableName`: if the first
character is a digit, the match (that digit) is replaced by `_` followed by
the digit itself. -/
def prefixDigit : List Char → List Char
  | [] => []
  | c :: rest =>
    if decide ('0' ≤ c) && decide (c ≤ '9') then '_' :: c :: rest
    else c :: rest

/-- `sanitizeTableName` from `useDuckDB.ts`:
`filename.replace(/\.[^.]+$/, '').replace(/[^a-zA-Z0-9_]/g, '_').replace(/^[0-9]/, '_$&')`.
It is a pure Lean function, hence deterministic and side-effect-free. -/
def sanitizeTableName (filename : String) : String :=
  let base := stripLastExt filename.toList
  let replaced := base.map (fun c => if isWordChar c then c else '_')
  String.mk (prefixDigit replaced)

/-- Modelled from the spec's words for the Name Sanitizer: "stripping the
last extension" — if the string contains a dot with a non-empty run of
characters after the last dot, remove the last dot and everything after it;
otherwise leave the string unchanged.  Stated via `reverse`, independently
of the regex formulation used by the source. -/
def stripLastExtSpec (l : List Char) : List Char :=
  let ext := l.reverse.takeWhile (fun d => d ≠ '.')
  let rest := l.reverse.dropWhile (fun d => d ≠ '.')
  if rest ≠ [] ∧ ext ≠ [] then rest.tail.reverse else l

/-- Modelled from the spec's words (claim C9): strip the last extension,
replace every character outside `[A-Za-z0-9_]` with `_`, then put `_` in
front if the first character is a digit. -/
def sanitizeSpec (filename : String) : String :=
  let base := stripLastExtSpec filename.toList
  let replaced := base.map (fun c => if isWordChar c then c else '_')
  String.mk (prefixDigit replaced)

theorem takeWhile_append_of_all {p : Char → Bool} {l : List Char}
    (m : List Char) (h : l.all p) :
    (l ++ m).takeWhile p = l ++ m.takeWhile p := by
  induction l with
  | nil => simp
  | cons c t ih =>
    simp only [List.all_cons, Bool.and_eq_true] at h
    simp [List.takeWhile_cons, h.1, ih h.2]

theorem dropWhile_append_of_all {p : Char → Bool} {l : List Char}
    (m : List Char) (h : l.all p) :
    (l ++ m).dropWhile p = m.dropWhile p := by
  induction l with
  | nil => simp
  | cons c t ih =>
    simp only [List.all_cons, Bool.and_eq_true] at h
    simp [List.dropWhile_cons, h.1, ih h.2]

theorem takeWhile_append_of_dropWhile_ne {p : Char → Bool} {l : List Char}
    (m : List Char) (h : l.dropWhile p ≠ []) :
    (l ++ m).takeWhile p = l.takeWhile p := by
  induction l with
  | nil => simp at h
  | cons c t ih =>
    by_cases hc : p c
    · simp only [List.dropWhile_cons, hc, if_true] at h
      simp [List.takeWhile_cons, hc, ih h]
    · simp [List.takeWhile_cons, hc]

theorem dropWhile_append_of_dropWhile_ne {p : Char → Bool} {l : List Char}
    (m : List Char) (h : l.dropWhile p ≠ []) :
    (l ++ m).dropWhile p = l.dropWhile p ++ m := by
  induction l with
  | nil => simp at h
  | cons c t ih =>
    by_cases hc : p c
    · simp only [List.dropWhile_cons, hc, if_true] at h
      simp [List.dropWhile_cons, hc, ih h]
    · simp [List.dropWhile_cons, hc]

theorem stripLastExt_eq_spec (l : List Char) :
    stripLastExt l = stripLastExtSpec l := by
  induction l with
  | nil => rfl
  | cons c t ih =>
    have hrc : (c :: t).reverse = t.reverse ++ [c] := by simp
    by_cases hmatch : c = '.' ∧ t ≠ [] ∧ t.all (fun d => d ≠ '.')
    · obtain ⟨hc, hne, hall⟩ := hmatch
      have hrevall : t.reverse.all (fun d => decide (d ≠ '.')) := by
        simpa [List.all_reverse] using hall
      subst hc
      have hd1 : List.takeWhile (fun d => decide (d ≠ '.')) ['.'] = [] := by decide
      have hd2 : List.dropWhile (fun d => decide (d ≠ '.')) ['.'] = ['.'] := by decide
      have e1 : (t.reverse ++ ['.']).takeWhile (fun d => decide (d ≠ '.'))
          = t.reverse := by
        rw [takeWhile_append_of_all _ hrevall, hd1, List.append_nil]
      have e2 : (t.reverse ++ ['.']).dropWhile (fun d => decide (d ≠ '.'))
          = ['.'] := by
        rw [dropWhile_append_of_all _ hrevall, hd2]
      have lhs : stripLastExt ('.' :: t) = [] := by
        unfold stripLastExt
        rw [if_pos ⟨rfl, hne, hall⟩]
      rw [lhs]
      simp only [stripLastExtSpec, hrc, e1, e2]
      rw [if_pos ⟨by simp, by simpa using hne⟩]
      simp
    · have lhs : stripLastExt (c :: t) = c :: stripLastExt t := by
        rw [stripLastExt, if_neg hmatch]
      rw [lhs, ih]
      by_cases hdrop : t.reverse.dropWhile (fun d => decide (d ≠ '.')) = []
      · -- no dot in t at all
        have hallrev : t.reverse.all (fun d => decide (d ≠ '.')) := by
          rw [List.all_eq_true]
          intro x hx
          exact List.dropWhile_eq_nil_iff.mp hdrop x hx
        have spec_t : stripLastExtSpec t = t := by
          simp only [stripLastExtSpec]
          rw [if_neg (fun hcontra => hcontra.1 hdrop)]
        by_cases hcdot : c = '.'
        · -- then t must be [] (otherwise hmatch would hold)
          have ht : t = [] := by
            by_contra htne
            have hall : t.all (fun d => d ≠ '.') := by
              simpa [List.all_reverse] using hallrev
            exact hmatch ⟨hcdot, htne, hall⟩
          subst ht
          subst hcdot
          rw [spec_t]
          decide
        · have e1 : (t.reverse ++ [c]).takeWhile (fun d => decide (d ≠ '.'))
              = t.reverse ++ [c] := by
            rw [takeWhile_append_of_all _ hallrev]
            simp [List.takeWhile_cons, hcdot]
          have e2 : (t.reverse ++ [c]).dropWhile (fun d => decide (d ≠ '.'))
              = [] := by
            rw [dropWhile_append_of_all _ hallrev]
            simp [List.dropWhile_cons, hcdot]
          rw [spec_t]
          simp only [stripLastExtSpec, hrc, e1, e2]
          rw [if_neg (by simp)]
      · -- t contains a dot
        have e1 : (t.reverse ++ [c]).takeWhile (fun d => decide (d ≠ '.'))
            = t.reverse.takeWhile (fun d => decide (d ≠ '.')) :=
          takeWhile_append_of_dropWhile_ne _ hdrop
        have e2 : (t.reverse ++ [c]).dropWhile (fun d => decide (d ≠ '.'))
            = t.reverse.dropWhile (fun d => decide (d ≠ '.')) ++ [c] :=
          dropWhile_append_of_dropWhile_ne _ hdrop
        by_cases hext : t.reverse.takeWhile (fun d => decide (d ≠ '.')) = []
        · have spec_t : stripLastExtSpec t = t := by
            simp only [stripLastExtSpec]
            rw [if_neg (fun hcontra => hcontra.2 hext)]
          rw [spec_t]
          simp only [stripLastExtSpec, hrc, e1, e2]
          rw [if_neg (fun hcontra => hcontra.2 hext)]
        · have spec_t : stripLastExtSpec t
              = (t.reverse.dropWhile (fun d => decide (d ≠ '.'))).tail.reverse := by
            simp only [stripLastExtSpec]
            rw [if_pos ⟨hdrop, hext⟩]
          rw [spec_t]
          simp only [stripLastExtSpec, hrc, e1, e2]
          rw [if_pos ⟨by simp, hext⟩]
          obtain ⟨y, ys, hys⟩ := List.exists_cons_of_ne_nil hdrop
          rw [hys]
          simp

/-- Claim C9: for every file name, the Name Sanitizer returns the identifier
obtained by stripping the last extension, then replacing every character
outside `[A-Za-z0-9_]` with `_`, then prefixing the result with `_` if its
first character is a digit.  (`sanitizeTableName` translates the source's
three chained regex replaces; `sanitizeSpec` follows the claim's wording.
Determinism and freedom from side effects hold because the embedding is a
pure function.) -/
theorem sanitizeTableName_matches_spec (filename : String) :
    sanitizeTableName filename = sanitizeSpec filename := by
  unfold sanitizeTableName sanitizeSpec
  rw [stripLastExt_eq_spec]

example : sanitizeTableName "2023 sales-data.csv" = "_2023_sales_data" := by decide
example : sanitizeTableName "a.b.c" = "a_b" := by decide
example : sanitizeTableName "abc." = "abc_" := by decide
example : sanitizeTableName "noext" = "noext" := by decide

/-! ## Catalog updates (`setLoadedFiles`) and the engine/catalog state -/

/-- The catalog update used by `loadFile`, `loadFileFromContent` and
`createJoinedTable` in `useDuckDB.ts`:
`setLoadedFiles(prev => [...prev.filter(f => f.tableName !== tableName), loadedFile])`,
where `tableName` is always the new entry's own `tableName`. -/
def upsertCatalog (cat : List LoadedFile) (entry : LoadedFile) : List LoadedFile :=
  cat.filter (fun f => f.tableName ≠ entry.tableName) ++ [entry]

theorem upsertCatalog_nodup {cat : List LoadedFile} (entry : LoadedFile)
    (h : (cat.map LoadedFile.tableName).Nodup) :
    ((upsertCatalog cat entry).map LoadedFile.tableName).Nodup := by
  unfold upsertCatalog
  rw [List.map_append, List.nodup_append]
  refine ⟨?_, by simp, ?_⟩
  · exact h.sublist ((List.filter_sublist _).map _)
  · intro x hx
    simp only [List.map_cons, List.map_nil, List.mem_singleton]
    intro hxe
    subst hxe
    simp only [List.mem_map] at hx
    obtain ⟨f, hf, hfx⟩ := hx
    rw [List.mem_filter] at hf
    exact absurd hfx (by simpa using hf.2)

theorem foldl_upsert_nodup (ops : List LoadedFile) (cat : List LoadedFile)
    (h : (cat.map LoadedFile.tableName).Nodup) :
    ((ops.foldl upsertCatalog cat).map LoadedFile.tableName).Nodup := by
  induction ops generalizing cat with
  | nil => simpa using h
  | cons e rest ih => exact ih _ (upsertCatalog_nodup e h)

/-- Claim C10: starting from the empty catalog, any sequence of catalog
additions (file ingest, ingest-from-persisted-content, join
materialization — each of which performs the same
filter-out-then-append `upsertCatalog` update keyed by the new entry's
`tableName`) yields a catalog whose relation names are pairwise distinct,
so lookup by table name is unambiguous. -/
theorem catalog_keys_nodup (ops : List LoadedFile) :
    ((ops.foldl upsertCatalog []).map LoadedFile.tableName).Nodup :=
  foldl_upsert_nodup ops [] (by simp)

/-- The engine-plus-catalog state of `useDuckDB`: the set of live relations
in the DuckDB instance, and the `loadedFiles` catalog. -/
structure EngineState where
  relations : List String
  catalog : List LoadedFile
deriving DecidableEq, Repr

/-- One `loadFile` call from `useDuckDB.ts` against state `s`, loading a file
named `fileName`.  The call first runs `DROP TABLE IF EXISTS "<tableName>"`
(removing the relation), then runs the format-specific `CREATE TABLE`:
if that parse/create succeeds (`parseOk = true`) the relation exists again,
schema introspection yields `introspectedCols`/`introspectedCount`, and the
catalog is upserted; if it fails, the thrown error propagates and the
catalog statement is never reached, leaving `loadedFiles` untouched. -/
def loadFileStep (s : EngineState) (fileName : String) (parseOk : Bool)
    (introspectedCols : List ColumnInfo) (introspectedCount : Nat) : EngineState :=
  let tableName := sanitizeTableName fileName
  let relAfterDrop := s.relations.filter (fun r => r ≠ tableName)
  if parseOk then
    { relations := relAfterDrop ++ [tableName],
      catalog := upsertCatalog s.catalog
        ⟨fileName, tableName, detectFormat fileName, introspectedCols, introspectedCount⟩ }
  else
    { relations := relAfterDrop, catalog := s.catalog }

/-- The catalog/engine lockstep invariant asserted by the spec: every
catalog entry's relation is live in the engine. -/
def catalogLive (s : EngineState) : Prop :=
  ∀ f ∈ s.catalog, f.tableName ∈ s.relations

instance (s : EngineState) : Decidable (catalogLive s) := by
  unfold catalogLive
  infer_instance

/-- Claim C2 is violated by the code: successfully loading `data.csv` and then
re-loading `data.csv` with content that fails to parse reaches a state in
which the old catalog entry for relation `data` survives (the failed
`loadFile` never touches `loadedFiles`) while the relation itself was
removed by the unconditional `DROP TABLE IF EXISTS` — a catalog entry
referring to a relation that no longer exists. -/
theorem catalog_stale_after_failed_reload :
    ¬ catalogLive
      (loadFileStep
        (loadFileStep ⟨[], []⟩ "data.csv" true [⟨"id", "BIGINT"⟩] 3)
        "data.csv" false [] 0) := by
  decide

/-! ## Join materialization catalog entry (`createJoinedTable`) -/

/-- The `LoadedFile` constructed at the end of `createJoinedTable` in
`useDuckDB.ts` for a successful join materialization named `newTableName`:
`{ name: newTableName + '.joined', tableName: sanitizeTableName(newTableName),
format: 'csv' /* Joined tables are virtual */, columns, rowCount }`, where
`columns`/`rowCount` come from re-running `DESCRIBE` and `COUNT(*)` against
the new relation. -/
def createJoinedEntry (newTableName : String)
    (introspectedCols : List ColumnInfo) (introspectedCount : Nat) : LoadedFile :=
  { name := newTableName ++ ".joined",
    tableName := sanitizeTableName newTableName,
    format := FileFormat.csv,
    columns := introspectedCols,
    rowCount := introspectedCount }

/-- Claim C4 is false as stated: the `format` recorded for a materialized
join is the literal `'csv'` (the source merely comments "Joined tables are
virtual"), which is NOT distinct from every real file format — here it
coincides exactly with the format under which an ingested `data.csv` file
is catalogued. -/
theorem joined_format_not_distinct :
    (createJoinedEntry "orders_joined" [] 0).format = detectFormat "data.csv" := by
  decide

/-- Claim C4 as amended: every successful join materialization registers the
new relation in the catalog as a `LoadedFile` whose `format` field is the
fixed placeholder `'csv'` (commented "Joined tables are virtual" in the
source) — a placeholder reusing a real format value, not a sentinel distinct
from the ingested-file formats. -/
theorem joined_format_is_csv_placeholder (newTableName : String)
    (cols : List ColumnInfo) (count : Nat) (cat : List LoadedFile) :
    (createJoinedEntry newTableName cols count).format = FileFormat.csv ∧
    createJoinedEntry newTableName cols count
      ∈ upsertCatalog cat (createJoinedEntry newTableName cols count) := by
  refine ⟨rfl, ?_⟩
  unfold upsertCatalog
  simp

/-! ## Join column alias policy (`getColumnAlias` in `JoinConfigurator.tsx`) -/

/-- The two sides of a join, `'left' | 'right'` in `SelectedColumn.table`. -/
inductive TableSide
  | left
  | right
deriving DecidableEq, Repr

/-- `getColumnAlias` from `JoinConfigurator.tsx`.  `leftColumns` is
`leftTable.columns`, `rightTableName` is `rightTable.tableName`.  A prefix
is "supplied" when it is a non-empty string (JS truthiness of `lPrefix` /
`rPrefix`); `none` means no `alias` property is set on the column. -/
def getColumnAlias (leftColumns : List ColumnInfo) (rightTableName : String)
    (table : TableSide) (columnName lPre rPre : String) : Option String :=
  match table with
  | .left =>
    if lPre ≠ "" then some (lPre ++ columnName) else none
  | .right =>
    if rPre ≠ "" then some (rPre ++ columnName)
    else if leftColumns.any (fun lc => lc.name = columnName) then
      some (rightTableName ++ "_" ++ columnName)
    else none

/-- Claim C3: with an explicit per-side prefix every column from that side is
aliased `prefix + columnName` unconditionally; with no right-side prefix a
right-side column is aliased iff its bare name also occurs among the left
table's columns, with auto-alias `rightTableName + "_" + columnName`; a
left-side column without an explicit prefix is never auto-aliased. -/
theorem getColumnAlias_policy (leftColumns : List ColumnInfo)
    (rightTableName columnName lPre rPre : String) :
    (lPre ≠ "" →
      getColumnAlias leftColumns rightTableName .left columnName lPre rPre
        = some (lPre ++ columnName)) ∧
    (lPre = "" →
      getColumnAlias leftColumns rightTableName .left columnName lPre rPre
        = none) ∧
    (rPre ≠ "" →
      getColumnAlias leftColumns rightTableName .right columnName lPre rPre
        = some (rPre ++ columnName)) ∧
    (rPre = "" →
      ((getColumnAlias leftColumns rightTableName .right columnName lPre rPre
          = some (rightTableName ++ "_" ++ columnName))
        ↔ ∃ lc ∈ leftColumns, lc.name = columnName)) ∧
    (rPre = "" →
      ((getColumnAlias leftColumns rightTableName .right columnName lPre rPre
          = none)
        ↔ ¬ ∃ lc ∈ leftColumns, lc.name = columnName)) := by
  refine ⟨?_, ?_, ?_, ?_, ?_⟩
  · intro h
    simp only [getColumnAlias]
    rw [if_pos h]
  · intro h
    subst h
    simp only [getColumnAlias]
    rw [if_neg (fun hc => hc rfl)]
  · intro h
    simp only [getColumnAlias]
    rw [if_pos h]
  · intro h
    subst h
    simp only [getColumnAlias]
    rw [if_neg (fun hc => hc rfl)]
    by_cases hmem : leftColumns.any (fun lc => lc.name = columnName) = true
    · rw [if_pos hmem]
      rw [List.any_eq_true] at hmem
      simp only [decide_eq_true_eq] at hmem
      simp [hmem]
    · rw [if_neg hmem]
      rw [List.any_eq_true] at hmem
      simp only [decide_eq_true_eq] at hmem
      simp [hmem]
  · intro h
    subst h
    simp only [getColumnAlias]
    rw [if_neg (fun hc => hc rfl)]
    by_cases hmem : leftColumns.any (fun lc => lc.name = columnName) = true
    · rw [if_pos hmem]
      rw [List.any_eq_true] at hmem
      simp only [decide_eq_true_eq] at hmem
      simp [hmem]
    · rw [if_neg hmem]
      rw [List.any_eq_true] at hmem
      simp only [decide_eq_true_eq] at hmem
      simp [hmem]

/-- Claim C3, instantiated at the spec's own example: left columns
`{id, name}`, right columns `{id, price}`, right relation `products`.
With no prefixes, right `id` is auto-aliased `products_id` and right
`price` is unaliased; left `id` is unaliased; with left prefix `l_`,
left `id` is aliased `l_id` regardless of collision. -/
theorem getColumnAlias_policy_witness :
    getColumnAlias [⟨"id", "BIGINT"⟩, ⟨"name", "VARCHAR"⟩] "products"
        .right "id" "" "" = some "products_id" ∧
    getColumnAlias [⟨"id", "BIGINT"⟩, ⟨"name", "VARCHAR"⟩] "products"
        .right "price" "" "" = none ∧
    getColumnAlias [⟨"id", "BIGINT"⟩, ⟨"name", "VARCHAR"⟩] "products"
        .left "id" "" "" = none ∧
    getColumnAlias [⟨"id", "BIGINT"⟩, ⟨"name", "VARCHAR"⟩] "products"
        .left "id" "l_" "" = some "l_id" := by
  refine ⟨?_, ?_, ?_, ?_⟩
  · exact ((getColumnAlias_policy [⟨"id", "BIGINT"⟩, ⟨"name", "VARCHAR"⟩]
      "products" "id" "" "").2.2.2.1 rfl).mpr ⟨⟨"id", "BIGINT"⟩, by simp, rfl⟩
  · exact ((getColumnAlias_policy [⟨"id", "BIGINT"⟩, ⟨"name", "VARCHAR"⟩]
      "products" "price" "" "").2.2.2.2 rfl).mpr (by decide)
  · exact (getColumnAlias_policy [⟨"id", "BIGINT"⟩, ⟨"name", "VARCHAR"⟩]
      "products" "id" "" "").2.1 rfl
  · exact (getColumnAlias_policy [⟨"id", "BIGINT"⟩, ⟨"name", "VARCHAR"⟩]
      "products" "id" "l_" "").1 (by decide)

/-! ## Session Store content encoding (`fileToPersistedFile` / `loadFileFromContent`) -/

/-- The standard base64 alphabet used by `btoa`. -/
def b64Alphabet : List Char :=
  "ABCDEFGHIJKLMNOPQRSTUVWXYZabcdefghijklmnopqrstuvwxyz0123456789+/".toList

/-- The base64 digit for a 6-bit value. -/
def b64Char (n : Nat) : Char := b64Alphabet.getD n 'A'

/-- `btoa` on a byte sequence, as used by `arrayBufferToBase64` in
`indexedDB.ts` (which builds a binary string from the bytes and calls
`btoa`): standard base64 with `=` padding. -/
def btoa : List Nat → List Char
  | [] => []
  | [b1] => [b64Char (b1 / 4), b64Char (b1 % 4 * 16), '=', '=']
  | [b1, b2] => [b64Char (b1 / 4), b64Char (b1 % 4 * 16 + b2 / 16), b64Char (b2 % 16 * 4), '=']
  | b1 :: b2 :: b3 :: rest =>
    b64Char (b1 / 4) :: b64Char (b1 % 4 * 16 + b2 / 16)
      :: b64Char (b2 % 16 * 4 + b3 / 64) :: b64Char (b3 % 64) :: btoa rest

/-- The 6-bit value of a base64 digit, `none` for a character outside the
alphabet (for which `atob` throws `InvalidCharacterError`). -/
def b64Val (c : Char) : Option Nat :=
  b64Alphabet.indexOf? c

/-- Reassemble bytes from a list of 6-bit values (`atob` core): groups of
four values give three bytes; a trailing group of two or three values gives
one or two bytes; a trailing single value is invalid. -/
def atobCore : List Nat → Option (List Nat)
  | [] => some []
  | [_] => none
  | [a, b] => some [a * 4 + b / 16]
  | [a, b, c] => some [a * 4 + b / 16, b % 16 * 16 + c / 4]
  | a :: b :: c :: d :: rest =>
    (atobCore rest).map
      (fun t => (a * 4 + b / 16) :: (b % 16 * 16 + c / 4) :: (c % 4 * 64 + d) :: t)

/-- `atob` on a string (as used by `base64ToArrayBuffer` and by the Excel and
parquet branches of `loadFileFromContent`), following the forgiving-base64
algorithm: strip up to two trailing `=` when the length is a multiple of
four, reject a leftover length of one modulo four, reject characters outside
the alphabet, then reassemble the bytes.  (ASCII whitespace stripping is
omitted: no input considered here contains whitespace.) -/
def atob (s : List Char) : Option (List Nat) :=
  let trimmed :=
    if s.length % 4 = 0 then
      match s.reverse with
      | '=' :: '=' :: restRev => restRev.reverse
      | '=' :: restRev => restRev.reverse
      | _ => s
    else s
  if trimmed.length % 4 = 1 then none
  else (trimmed.mapM b64Val).bind atobCore

/-- The content-encoding half of `fileToPersistedFile` in `indexedDB.ts`:
only the `parquet` format is treated as binary and base64-encoded
(`arrayBufferToBase64`); every other format — including the binary
spreadsheet formats `xlsx`/`xls` — is stored via `file.text()`.  Bytes are
modelled as `List Nat`; the `file.text()` path is modelled as the identity
on character codes, which is exact for ASCII content. -/
def saveContent (format : FileFormat) (bytes : List Nat) : List Char :=
  if format = FileFormat.parquet then btoa bytes
  else bytes.map Char.ofNat

/-- The content-decoding half of `loadFileFromContent` in `useDuckDB.ts`:
the `xlsx`/`xls` branch and the `parquet` branch both run the stored content
through `atob` ("content is base64 encoded") to recover bytes; the
`csv`/`tsv`/`json` branches register the stored text verbatim.  Returns the
byte sequence handed to ingestion, or `none` when `atob` throws. -/
def restoreContent (format : FileFormat) (content : List Char) : Option (List Nat) :=
  match format with
  | .xlsx | .xls | .parquet => atob content
  | _ => some (content.map Char.toNat)

example : atob (btoa [33]) = some [33] := by decide
example : atob ['!'] = none := by decide

/-- Claim C1 is violated by the code for the binary spreadsheet formats: for
an `.xlsx` file whose stored byte is 33 (`!`), `fileToPersistedFile` stores
the raw text `"!"` — NOT its base64 encoding `"IQ=="` — because only
`parquet` takes the binary branch; `loadFileFromContent` then runs that raw
text through `atob`, which throws `InvalidCharacterError`, so the content
handed to ingestion on restore is not byte-identical to the saved file (the
restore fails outright).  The same pipeline is byte-faithful for `parquet`,
whose content is base64-encoded on save as the persisted-content comments
("Base64 encoded for binary, raw for text") prescribe for all binary
formats. -/
theorem persistRoundTrip_xlsx_bug :
    saveContent FileFormat.xlsx [33] ≠ btoa [33] ∧
    restoreContent FileFormat.xlsx (saveContent FileFormat.xlsx [33]) = none ∧
    restoreContent FileFormat.parquet (saveContent FileFormat.parquet [33])
      = some [33] := by
  decide

/-! ## CSV/TSV field escaping (`exportFromData` in `useDuckDB.ts`) -/

/-- The `str.replace(/"/g, '""')` step of `escapeField`: double every
double-quote character. -/
def doubleQuotes : List Char → List Char
  | [] => []
  | c :: rest =>
    if c = dqc then dqc :: dqc :: doubleQuotes rest
    else c :: doubleQuotes rest

/-- `escapeField` from `exportFromData` in `useDuckDB.ts`: `null`/`undefined`
(modelled as `none`) render as the empty string; a string containing the
delimiter, a double quote, or a newline is wrapped in double quotes with
internal quotes doubled; any other string is emitted verbatim. -/
def escapeField (delimiter : Char) (val : Option String) : String :=
  let str := match val with
    | none => ""
    | some s => s
  if delimiter ∈ str.toList ∨ dqc ∈ str.toList ∨ nlc ∈ str.toList then
    String.mk (dqc :: doubleQuotes str.toList ++ [dqc])
  else str

/-- Modelled from the spec: the inverse `""` → `"` step of a standard CSV
field parser (the parse direction is not part of the repository; claim C6
describes it as "unquote, un-double quotes"). -/
def undoubleQuotes : List Char → List Char
  | [] => []
  | [c] => [c]
  | c1 :: c2 :: rest =>
    if c1 = dqc ∧ c2 = dqc then dqc :: undoubleQuotes rest
    else c1 :: undoubleQuotes (c2 :: rest)
termination_by l => l.length

/-- Modelled from the spec: a standard CSV field parser on the character
list of a field — a field starting with a double quote has its surrounding
quotes stripped and its doubled internal quotes collapsed; any other field
is taken verbatim. -/
def parseCsvFieldChars : List Char → List Char
  | [] => []
  | c :: rest =>
    if c = dqc then undoubleQuotes rest.dropLast
    else c :: rest

/-- Modelled from the spec: the CSV field parser on strings. -/
def parseCsvField (s : String) : String :=
  String.mk (parseCsvFieldChars s.toList)

theorem strMk_toList (s : String) : String.mk s.toList = s := rfl

theorem undoubleQuotes_doubleQuotes (l : List Char) :
    undoubleQuotes (doubleQuotes l) = l := by
  induction l with
  | nil => simp [doubleQuotes, undoubleQuotes]
  | cons c rest ih =>
    by_cases hc : c = dqc
    · subst hc
      have hdq : doubleQuotes (dqc :: rest) = dqc :: dqc :: doubleQuotes rest := by
        simp [doubleQuotes]
      rw [hdq]
      have hun : undoubleQuotes (dqc :: dqc :: doubleQuotes rest)
          = dqc :: undoubleQuotes (doubleQuotes rest) := by
        simp [undoubleQuotes]
      rw [hun, ih]
    · have hdq : doubleQuotes (c :: rest) = c :: doubleQuotes rest := by
        simp [doubleQuotes, hc]
      rw [hdq]
      cases hd : doubleQuotes rest with
      | nil =>
        have hrest : rest = [] := by
          cases rest with
          | nil => rfl
          | cons x xs =>
            by_cases hx : x = dqc
            · subst hx
              simp [doubleQuotes] at hd
            · simp [doubleQuotes, hx] at hd
        subst hrest
        simp [undoubleQuotes]
      | cons d ds =>
        have hun : undoubleQuotes (c :: d :: ds) = c :: undoubleQuotes (d :: ds) := by
          simp [undoubleQuotes, hc]
        rw [hun, ← hd, ih]

/-- Claim C6: in CSV/TSV export, a `none` (null/undefined) field renders as
the empty string; a field is emitted verbatim (unquoted) iff its string form
contains neither the delimiter nor a double quote nor a newline, and is
otherwise wrapped in quotes with internal quotes doubled; and for every
string, encoding then parsing the field back yields the original string. -/
theorem csvField_escape_roundTrip (delimiter : Char) (s : String) :
    escapeField delimiter none = "" ∧
    (¬ (delimiter ∈ s.toList ∨ dqc ∈ s.toList ∨ nlc ∈ s.toList) →
      escapeField delimiter (some s) = s) ∧
    ((delimiter ∈ s.toList ∨ dqc ∈ s.toList ∨ nlc ∈ s.toList) →
      escapeField delimiter (some s)
        = String.mk (dqc :: doubleQuotes s.toList ++ [dqc])) ∧
    parseCsvField (escapeField delimiter (some s)) = s := by
  refine ⟨?_, ?_, ?_, ?_⟩
  · simp [escapeField]
  · intro h
    simp only [escapeField]
    rw [if_neg h]
  · intro h
    simp only [escapeField]
    rw [if_pos h]
  · by_cases h : delimiter ∈ s.toList ∨ dqc ∈ s.toList ∨ nlc ∈ s.toList
    · simp only [escapeField]
      rw [if_pos h]
      simp only [parseCsvField]
      have htl : (String.mk (dqc :: doubleQuotes s.toList ++ [dqc])).toList
          = dqc :: (doubleQuotes s.toList ++ [dqc]) := rfl
      rw [htl]
      have hp : parseCsvFieldChars (dqc :: (doubleQuotes s.toList ++ [dqc]))
          = undoubleQuotes (doubleQuotes s.toList ++ [dqc]).dropLast := by
        simp [parseCsvFieldChars]
      rw [hp, List.dropLast_concat, undoubleQuotes_doubleQuotes]
      exact strMk_toList s
    · simp only [escapeField]
      rw [if_neg h]
      simp only [parseCsvField]
      have hp : parseCsvFieldChars s.toList = s.toList := by
        cases hs : s.toList with
        | nil => rfl
        | cons c rest =>
          have hcne : c ≠ dqc := by
            intro hc
            subst hc
            exact h (Or.inr (Or.inl (hs ▸ List.mem_cons_self _ _)))
          simp [parseCsvFieldChars, hcne]
      rw [hp]
      exact strMk_toList s

/-- Claim C6 at concrete inputs: a field containing a quote round-trips, a
field containing a comma is quoted-with-doubling, and a plain field is
emitted verbatim. -/
theorem csvField_escape_roundTrip_witness :
    parseCsvField (escapeField ',' (some (String.mk ['a', dqc, 'b'])))
      = String.mk ['a', dqc, 'b'] ∧
    escapeField ',' (some "a,b") = String.mk [dqc, 'a', ',', 'b', dqc] ∧
    escapeField ',' (some "plain") = "plain" ∧
    escapeField ',' none = "" := by
  refine ⟨?_, ?_, ?_, ?_⟩
  · exact (csvField_escape_roundTrip ',' (String.mk ['a', dqc, 'b'])).2.2.2
  · have h := (csvField_escape_roundTrip ',' "a,b").2.2.1 (by decide)
    rw [h]
    decide
  · exact (csvField_escape_roundTrip ',' "plain").2.1 (by decide)
  · exact (csvField_escape_roundTrip ',' "x").1

/-! ## Tab manager (`handleTabClose` in `App.tsx`) -/

/-- The slice of `FileTabState` (from `types/index.ts` / `App.tsx`) that tab
bookkeeping concerns: tabs are identified by `file.tableName`; `payload`
stands for the rest of the tab state (`queryResult`, `lastQuery`,
`quickFilter`, `filterModel`), carried along untouched. -/
structure Tab where
  tableName : String
  payload : Nat
deriving DecidableEq, Repr

/-- `handleTabClose` from `App.tsx`: filter out every tab whose
`file.tableName` equals the closed id; if the closed id was the active one
and tabs remain, activate the last remaining tab (`newTabs[newTabs.length - 1]`);
if no tabs remain, clear the active id; otherwise leave it unchanged. -/
def handleTabClose (tableName : String) (prev : List Tab)
    (activeTabId : Option String) : List Tab × Option String :=
  let newTabs := prev.filter (fun t => t.tableName ≠ tableName)
  if activeTabId = some tableName ∧ newTabs ≠ [] then
    (newTabs, (newTabs.getLast?).map Tab.tableName)
  else if newTabs = [] then
    (newTabs, none)
  else
    (newTabs, activeTabId)

/-- Claim C7: `close(tableId)` removes exactly the tab(s) with that id; if the
closed tab was the active one and at least one tab remains, the new active
tab is the last element of the remaining sequence (the most recently added);
if no tabs remain, there is no active tab.  (The code additionally leaves
the active id unchanged when a non-active tab is closed.) -/
theorem handleTabClose_spec (tableName : String) (prev : List Tab)
    (activeTabId : Option String) :
    (handleTabClose tableName prev activeTabId).1
      = prev.filter (fun t => t.tableName ≠ tableName) ∧
    (activeTabId = some tableName →
      prev.filter (fun t => t.tableName ≠ tableName) ≠ [] →
      (handleTabClose tableName prev activeTabId).2
        = ((prev.filter (fun t => t.tableName ≠ tableName)).getLast?).map
            Tab.tableName) ∧
    (prev.filter (fun t => t.tableName ≠ tableName) = [] →
      (handleTabClose tableName prev activeTabId).2 = none) ∧
    (activeTabId ≠ some tableName →
      prev.filter (fun t => t.tableName ≠ tableName) ≠ [] →
      (handleTabClose tableName prev activeTabId).2 = activeTabId) := by
  refine ⟨?_, ?_, ?_, ?_⟩
  · simp only [handleTabClose]
    split
    · rfl
    · split
      · rfl
      · rfl
  · intro ha hne
    simp only [handleTabClose]
    rw [if_pos ⟨ha, hne⟩]
  · intro hnil
    simp only [handleTabClose]
    rw [if_neg (fun hc => hc.2 hnil), if_pos hnil]
  · intro ha hne
    simp only [handleTabClose]
    rw [if_neg (fun hc => ha hc.1), if_neg hne]

/-- Claim C7 at the spec's test scenario: three tabs `a`, `b`, `c` with `b`
active; closing `b` leaves `[a, c]` and activates `c`, the last (most
recently added) remaining tab; closing everything leaves no active tab. -/
theorem handleTabClose_spec_witness :
    (handleTabClose "b" [⟨"a", 0⟩, ⟨"b", 1⟩, ⟨"c", 2⟩] (some "b")).1
      = [⟨"a", 0⟩, ⟨"c", 2⟩] ∧
    (handleTabClose "b" [⟨"a", 0⟩, ⟨"b", 1⟩, ⟨"c", 2⟩] (some "b")).2
      = some "c" ∧
    (handleTabClose "a" [⟨"a", 0⟩] (some "a")).2 = none := by
  refine ⟨?_, ?_, ?_⟩
  · have h := (handleTabClose_spec "b" [⟨"a", 0⟩, ⟨"b", 1⟩, ⟨"c", 2⟩] (some "b")).1
    rw [h]
    decide
  · have h := (handleTabClose_spec "b" [⟨"a", 0⟩, ⟨"b", 1⟩, ⟨"c", 2⟩]
      (some "b")).2.1 rfl (by decide)
    rw [h]
    decide
  · exact (handleTabClose_spec "a" [⟨"a", 0⟩] (some "a")).2.2.1 (by decide)

/-! ## Session restore (`restoreLastFile` in `App.tsx`) -/

/-- `PersistedFile` from `types/index.ts` (fields relevant to restore). -/
structure PersistedFileR where
  id : String
  name : String
  format : FileFormat
  content : String
deriving DecidableEq, Repr

/-- `QueryResult` from `types/index.ts`, restricted to the fields the
restore path stores into the new tab. -/
structure QueryResultM where
  columns : List String
  rowCount : Nat
deriving DecidableEq, Repr

/-- `FileTabState` from `types/index.ts` (without the opaque grid filter
model, which restore always sets to `null`). -/
structure FileTabStateM where
  file : LoadedFile
  queryResult : QueryResultM
  lastQuery : String
  quickFilter : String
deriving DecidableEq, Repr

/-- The possible outcomes of `restoreLastFile` in `App.tsx`: a restored tab,
the silent "nothing to restore" return (no last-used id), or the
"Previous session could not be restored" notification. -/
inductive RestoreOutcome
  | restored
  | nothingToRestore
  | couldNotRestore
deriving DecidableEq, Repr

/-- `restoreLastFile` from `App.tsx`, with its collaborators passed in
explicitly: `getLastId` models `getLastUsedFileId()`, `getPersisted` models
`getPersistedFile(id)`, `ingestRelation` models the engine work of
`loadFileFromContent(content, name, format)` (decode + drop + create +
introspect), and `runQuery` models `executeQuery`.  An `Except.error` value
models a thrown exception/rejected promise; the enclosing `try`/`catch`
turns every such error into the `couldNotRestore` outcome, so the function
is total and never propagates an exception.  The second component is the
resulting tab list (`setTabs([newTab])` runs only on full success; the tab
list starts empty on mount) and the third is the resulting catalog
(`loadFileFromContent` upserts it only after its `CREATE TABLE` succeeded). -/
def restoreLastFile (catalog0 : List LoadedFile)
    (getLastId : Except String (Option String))
    (getPersisted : String → Except String (Option PersistedFileR))
    (ingestRelation : String → String → FileFormat → Except String LoadedFile)
    (runQuery : String → Except String QueryResultM) :
    RestoreOutcome × List FileTabStateM × List LoadedFile :=
  match getLastId with
  | .error _ => (.couldNotRestore, [], catalog0)
  | .ok none => (.nothingToRestore, [], catalog0)
  | .ok (some lastId) =>
    match getPersisted lastId with
    | .error _ => (.couldNotRestore, [], catalog0)
    | .ok none => (.couldNotRestore, [], catalog0)
    | .ok (some p) =>
      match ingestRelation p.content p.name p.format with
      | .error _ => (.couldNotRestore, [], catalog0)
      | .ok loaded =>
        let catalog1 := upsertCatalog catalog0 loaded
        match runQuery ("SELECT * FROM " ++ dqStr ++ loaded.tableName
            ++ dqStr ++ " LIMIT 1000") with
        | .error _ => (.couldNotRestore, [], catalog1)
        | .ok res =>
          (.restored,
            [⟨loaded, res, "SELECT * FROM " ++ dqStr ++ loaded.tableName ++ dqStr, ""⟩],
            catalog1)

/-- Claim C8: whenever the "last used" id is absent, the persisted record is
missing, or the record's content fails to decode/ingest (including a thrown
lookup error), `restoreLastFile` — started, as on mount, with an empty
catalog — yields the recoverable `nothingToRestore` or `couldNotRestore`
outcome, and leaves both the tab list and the catalog empty.  It never
propagates an exception: it is a total function whose result type has no
error case. -/
theorem restoreLastFile_degrades
    (getLastId : Except String (Option String))
    (getPersisted : String → Except String (Option PersistedFileR))
    (ingestRelation : String → String → FileFormat → Except String LoadedFile)
    (runQuery : String → Except String QueryResultM)
    (h : getLastId = .ok none ∨ (∃ e, getLastId = .error e) ∨
      (∃ lastId, getLastId = .ok (some lastId) ∧
        (getPersisted lastId = .ok none ∨
          (∃ e, getPersisted lastId = .error e) ∨
          (∃ p, getPersisted lastId = .ok (some p) ∧
            ∃ e, ingestRelation p.content p.name p.format = .error e)))) :
    ((restoreLastFile [] getLastId getPersisted ingestRelation runQuery).1
        = RestoreOutcome.nothingToRestore ∨
      (restoreLastFile [] getLastId getPersisted ingestRelation runQuery).1
        = RestoreOutcome.couldNotRestore) ∧
    (restoreLastFile [] getLastId getPersisted ingestRelation runQuery).2.1 = [] ∧
    (restoreLastFile [] getLastId getPersisted ingestRelation runQuery).2.2 = [] := by
  rcases h with h | ⟨e, h⟩ | ⟨lastId, hid, hrest⟩
  · rw [h]
    exact ⟨Or.inl rfl, rfl, rfl⟩
  · rw [h]
    exact ⟨Or.inr rfl, rfl, rfl⟩
  · rw [hid]
    rcases hrest with h2 | ⟨e, h2⟩ | ⟨p, hp, e, hing⟩
    · simp only [restoreLastFile, h2]
      exact ⟨Or.inr trivial, trivial, trivial⟩
    · simp only [restoreLastFile, h2]
      exact ⟨Or.inr trivial, trivial, trivial⟩
    · simp only [restoreLastFile, hp, hing]
      exact ⟨Or.inr trivial, trivial, trivial⟩

/-- Claim C8 at concrete inputs: an absent last-used id gives the silent
"nothing to restore" outcome; a missing record and an ingest failure give
"could not restore"; tabs and catalog stay empty in each case. -/
theorem restoreLastFile_degrades_witness :
    (restoreLastFile [] (Except.ok none) (fun _ => Except.ok none)
        (fun _ _ _ => Except.error "parse failed")
        (fun _ => Except.error "no db")).1
      = RestoreOutcome.nothingToRestore ∧
    (restoreLastFile [] (Except.ok (some "f.csv-1")) (fun _ => Except.ok none)
        (fun _ _ _ => Except.error "parse failed")
        (fun _ => Except.error "no db")).1
      = RestoreOutcome.couldNotRestore ∧
    (restoreLastFile [] (Except.ok (some "f.csv-1"))
        (fun _ => Except.ok (some ⟨"f.csv-1", "f.csv", FileFormat.csv, "not,csv"⟩))
        (fun _ _ _ => Except.error "parse failed")
        (fun _ => Except.error "no db")).2.1 = [] := by
  refine ⟨?_, ?_, ?_⟩
  · rcases restoreLastFile_degrades (Except.ok none) (fun _ => Except.ok none)
      (fun _ _ _ => Except.error "parse failed") (fun _ => Except.error "no db")
      (Or.inl rfl) with ⟨houtcome, -, -⟩
    rcases houtcome with h | h
    · exact h
    · exact absurd h (by decide)
  · rcases restoreLastFile_degrades (Except.ok (some "f.csv-1"))
      (fun _ => Except.ok none) (fun _ _ _ => Except.error "parse failed")
      (fun _ => Except.error "no db")
      (Or.inr (Or.inr ⟨"f.csv-1", rfl, Or.inl rfl⟩)) with ⟨houtcome, -, -⟩
    rcases houtcome with h | h
    · exact absurd h (by decide)
    · exact h
  · rcases restoreLastFile_degrades (Except.ok (some "f.csv-1"))
      (fun _ => Except.ok (some ⟨"f.csv-1", "f.csv", FileFormat.csv, "not,csv"⟩))
      (fun _ _ _ => Except.error "parse failed") (fun _ => Except.error "no db")
      (Or.inr (Or.inr ⟨"f.csv-1", rfl,
        Or.inr (Or.inr ⟨⟨"f.csv-1", "f.csv", FileFormat.csv, "not,csv"⟩, rfl,
          "parse failed", rfl⟩)⟩)) with ⟨-, htabs, -⟩
    exact htabs

/-! ## Filter-to-SQL reconstruction (`exportWithFilters` in `useDuckDB.ts`) -/

/-- ASCII whitespace test, modelling the characters
`String.prototype.trim` removes in the inputs considered here. -/
def isSpaceChar (c : Char) : Bool :=
  c == ' ' || c == Char.ofNat 9 || c == nlc || c == Char.ofNat 13

/-- `quickFilterText.trim()`: remove leading and trailing whitespace. -/
def trimStr (s : String) : String :=
  String.mk (((s.toList.dropWhile isSpaceChar).reverse.dropWhile isSpaceChar).reverse)

/-- The `.replace(/'/g, "''")` escaping applied to every string literal
interpolated into the generated SQL. -/
def sqlEscapeLit (s : String) : String :=
  String.mk (s.toList.foldr
    (fun c acc => if c = squote then squote :: squote :: acc else c :: acc) [])

/-- The quick-filter clause built by `exportWithFilters`:
`(CAST("col1" AS VARCHAR) ILIKE '%term%' OR …)` over every visible column,
with `term` the trimmed quick-filter text, single quotes doubled. -/
def quickFilterClause (visibleColumns : List String) (term : String) : String :=
  "(" ++ String.intercalate " OR "
    (visibleColumns.map (fun col =>
      "CAST(" ++ dqStr ++ col ++ dqStr ++ " AS VARCHAR) ILIKE "
        ++ sqStr ++ "%" ++ sqlEscapeLit term ++ "%" ++ sqStr)) ++ ")"

/-- The `type` field of an AG Grid text filter, as matched by the `switch`
in `exportWithFilters` (`otherOp` is the `default` arm). -/
inductive TextOp
  | containsOp
  | notContainsOp
  | equalsOp
  | notEqualOp
  | startsWithOp
  | endsWithOp
  | otherOp
deriving DecidableEq, Repr

/-- The `type` field of an AG Grid number filter, as matched by the `switch`
in `exportWithFilters`. -/
inductive NumOp
  | equalsOp
  | notEqualOp
  | greaterThanOp
  | greaterThanOrEqualOp
  | lessThanOp
  | lessThanOrEqualOp
  | inRangeOp
deriving DecidableEq, Repr

/-- One entry of the AG Grid `filterModel` handed to `exportWithFilters`:
either a text filter (`filterType === 'text'`) with its value, or a number
filter (`filterType === 'number'`) with `filter` and optional `filterTo`.
An entry whose `filter` value is missing is represented by a text filter
with the empty string (JS falsy), which the code skips. -/
inductive ColumnFilter
  | textF (op : TextOp) (value : String)
  | numberF (op : NumOp) (value : Int) (filterTo : Option Int)
deriving DecidableEq, Repr

/-- The per-entry clause translation of the `filterModel` loop in
`exportWithFilters`; `none` means no clause is pushed (incomplete filter,
silently skipped). -/
def columnFilterClause (entry : String × ColumnFilter) : Option String :=
  match entry with
  | (column, .textF op value) =>
    if value = "" then none
    else
      let castCol := "CAST(" ++ dqStr ++ column ++ dqStr ++ " AS VARCHAR)"
      let v := sqlEscapeLit value
      some (match op with
        | .containsOp => castCol ++ " ILIKE " ++ sqStr ++ "%" ++ v ++ "%" ++ sqStr
        | .notContainsOp => castCol ++ " NOT ILIKE " ++ sqStr ++ "%" ++ v ++ "%" ++ sqStr
        | .equalsOp => castCol ++ " = " ++ sqStr ++ v ++ sqStr
        | .notEqualOp => castCol ++ " != " ++ sqStr ++ v ++ sqStr
        | .startsWithOp => castCol ++ " ILIKE " ++ sqStr ++ v ++ "%" ++ sqStr
        | .endsWithOp => castCol ++ " ILIKE " ++ sqStr ++ "%" ++ v ++ sqStr
        | .otherOp => castCol ++ " ILIKE " ++ sqStr ++ "%" ++ v ++ "%" ++ sqStr)
  | (column, .numberF op value filterTo) =>
    match op with
    | .equalsOp => some (dqStr ++ column ++ dqStr ++ " = " ++ toString value)
    | .notEqualOp => some (dqStr ++ column ++ dqStr ++ " != " ++ toString value)
    | .greaterThanOp => some (dqStr ++ column ++ dqStr ++ " > " ++ toString value)
    | .greaterThanOrEqualOp =>
      some (dqStr ++ column ++ dqStr ++ " >= " ++ toString value)
    | .lessThanOp => some (dqStr ++ column ++ dqStr ++ " < " ++ toString value)
    | .lessThanOrEqualOp =>
      some (dqStr ++ column ++ dqStr ++ " <= " ++ toString value)
    | .inRangeOp =>
      filterTo.map (fun ft =>
        dqStr ++ column ++ dqStr ++ " BETWEEN " ++ toString value
          ++ " AND " ++ toString ft)

/-- The clauses pushed for the structured filter model. -/
def columnFilterClauses (filterModel : List (String × ColumnFilter)) : List String :=
  filterModel.filterMap columnFilterClause

/-- The `whereClauses` array built by `exportWithFilters`: the quick-filter
disjunction first (when the quick-filter text is non-empty after trimming,
the JS truthiness check `quickFilterText && quickFilterText.trim()`),
followed by the per-column filter clauses. -/
def exportWhereClauses (visibleColumns : List String) (quickFilterText : String)
    (filterModel : List (String × ColumnFilter)) : List String :=
  (if trimStr quickFilterText = "" then []
    else [quickFilterClause visibleColumns (trimStr quickFilterText)])
    ++ columnFilterClauses filterModel

/-- The final SQL string built by `exportWithFilters`:
`SELECT "<cols>" FROM "<table>" [WHERE <clauses joined by AND>]`. -/
def exportFilterSql (tableName : String) (visibleColumns : List String)
    (quickFilterText : String) (filterModel : List (String × ColumnFilter)) :
    String :=
  let columns := String.intercalate ", "
    (visibleColumns.map (fun c => dqStr ++ c ++ dqStr))
  let wcs := exportWhereClauses visibleColumns quickFilterText filterModel
  let whereClause :=
    if wcs = [] then "" else "WHERE " ++ String.intercalate " AND " wcs
  "SELECT " ++ columns ++ " FROM " ++ dqStr ++ tableName ++ dqStr ++ " "
    ++ whereClause

/-- All suffixes of a character list, longest first (ending with `[]`). -/
def listSuffixes : List Char → List (List Char)
  | [] => [[]]
  | c :: rest => (c :: rest) :: listSuffixes rest

/-- SQL `LIKE` pattern matching over character lists (the engine is external
to the repository; this models DuckDB's `LIKE`): `%` matches any — possibly
empty — sequence (some suffix of the value continues the match), `_` matches
exactly one character, and any other pattern character matches itself. -/
def likeMatch : List Char → List Char → Bool
  | [], s => s.isEmpty
  | '%' :: ps, s => (listSuffixes s).any (fun s2 => likeMatch ps s2)
  | '_' :: ps, s =>
    match s with
    | [] => false
    | _ :: s2 => likeMatch ps s2
  | p :: ps, s =>
    match s with
    | [] => false
    | c :: s2 => (p == c) && likeMatch ps s2

/-- Boolean list-prefix test. -/
def leadsWith : List Char → List Char → Bool
  | [], _ => true
  | _ :: _, [] => false
  | a :: as, b :: bs => (a == b) && leadsWith as bs

/-- Boolean contiguous-sublist (substring) test. -/
def occursIn (needle : List Char) : List Char → Bool
  | [] => leadsWith needle []
  | c :: rest => leadsWith needle (c :: rest) || occursIn needle rest

/-- Case-insensitive substring containment: the spec's notion of "some
visible column's value contains the trimmed term case-insensitively". -/
def containsCI (hay needle : String) : Bool :=
  occursIn (needle.toList.map Char.toLower) (hay.toList.map Char.toLower)

/-- The engine's evaluation of the quick-filter clause
`(CAST("c1" AS VARCHAR) ILIKE '%term%' OR …)` on one row (`row` maps a
column name to the `VARCHAR` cast of its value): `ILIKE` is `likeMatch` on
lower-cased pattern and value, and the parsed SQL string literal `'%term%'`
denotes `%term%` (the quote doubling in `sqlEscapeLit` is undone by the SQL
literal syntax). -/
def evalQuickFilter (visibleColumns : List String) (term : String)
    (row : String → String) : Bool :=
  visibleColumns.any (fun col =>
    likeMatch (('%' :: term.toList ++ ['%']).map Char.toLower)
      ((row col).toList.map Char.toLower))

theorem likeMatch_pct_true (s : List Char) : likeMatch ['%'] s = true := by
  have hmem : ([] : List Char) ∈ listSuffixes s := by
    induction s with
    | nil => simp [listSuffixes]
    | cons c rest ih => simp [listSuffixes, ih]
  show (listSuffixes s).any (fun s2 => likeMatch [] s2) = true
  rw [List.any_eq_true]
  exact ⟨[], hmem, by simp [likeMatch]⟩

theorem likeMatch_lit (t : List Char) (hnw : ∀ c ∈ t, c ≠ '%' ∧ c ≠ '_')
    (s : List Char) :
    likeMatch (t ++ ['%']) s = leadsWith t s := by
  induction t generalizing s with
  | nil =>
    simp [leadsWith, likeMatch_pct_true]
  | cons a t' ih =>
    obtain ⟨ha, hat⟩ := List.forall_mem_cons.mp hnw
    cases s with
    | nil => simp [likeMatch, leadsWith, ha.1, ha.2]
    | cons b s2 => simp [likeMatch, leadsWith, ha.1, ha.2, ih hat]

theorem occursIn_any_suffix (t s : List Char) :
    (listSuffixes s).any (fun s2 => leadsWith t s2) = occursIn t s := by
  induction s with
  | nil => simp [listSuffixes, occursIn]
  | cons c rest ih => simp only [listSuffixes, List.any_cons, occursIn, ih]

theorem likeMatch_occursIn (t : List Char) (hnw : ∀ c ∈ t, c ≠ '%' ∧ c ≠ '_')
    (s : List Char) :
    likeMatch ('%' :: (t ++ ['%'])) s = occursIn t s := by
  show (listSuffixes s).any (fun s2 => likeMatch (t ++ ['%']) s2) = occursIn t s
  have hfun : (fun s2 => likeMatch (t ++ ['%']) s2)
      = (fun s2 => leadsWith t s2) :=
    funext (fun s2 => likeMatch_lit t hnw s2)
  rw [hfun, occursIn_any_suffix]

/-- Claim C5 is false as stated: the claim's "iff substring" reading fails
for quick-filter terms containing a SQL `LIKE` wildcard.  For visible
columns `[a]` and the (trimmed, non-empty) term `f%x`, the generated clause
`CAST("a" AS VARCHAR) ILIKE '%f%x%'` is satisfied by the row `{a: "fx"}`,
yet `"fx"` does not contain the term `"f%x"` as a substring (case
insensitively or otherwise). -/
theorem quickFilter_wildcard_counterexample :
    trimStr "f%x" ≠ "" ∧
    evalQuickFilter ["a"] (trimStr "f%x") (fun _ => "fx") = true ∧
    containsCI "fx" (trimStr "f%x") = false := by
  decide

/-- Claim C5 as amended: for every visible-column list and quick-filter text
that is non-empty after trimming, the `whereClauses` array of the
reconstructed SQL starts with the single disjunctive clause
`(CAST("col" AS VARCHAR) ILIKE '%term%' OR …)` over every visible column,
the per-column predicates follow it, and the final SQL joins them all with
`AND` after `WHERE`; and — provided the trimmed term contains no SQL `LIKE`
wildcard (no `%` and no `_`; stated on case-folded characters, which
wildcards are fixed by) — a row satisfies that clause if and only if some
visible column's value contains the trimmed term case-insensitively.  For
wildcard-bearing terms the clause instead has `LIKE`-pattern semantics (see
the counterexample). -/
theorem quickFilter_clause_semantics (visibleColumns : List String)
    (quickFilterText : String) (filterModel : List (String × ColumnFilter))
    (tableName : String)
    (h1 : trimStr quickFilterText ≠ "")
    (h2 : ∀ c ∈ (trimStr quickFilterText).toList,
      c.toLower ≠ '%' ∧ c.toLower ≠ '_') :
    exportWhereClauses visibleColumns quickFilterText filterModel
      = quickFilterClause visibleColumns (trimStr quickFilterText)
        :: columnFilterClauses filterModel ∧
    exportFilterSql tableName visibleColumns quickFilterText filterModel
      = "SELECT "
        ++ String.intercalate ", "
          (visibleColumns.map (fun c => dqStr ++ c ++ dqStr))
        ++ " FROM " ++ dqStr ++ tableName ++ dqStr ++ " "
        ++ ("WHERE " ++ String.intercalate " AND "
          (quickFilterClause visibleColumns (trimStr quickFilterText)
            :: columnFilterClauses filterModel)) ∧
    ∀ row : String → String,
      (evalQuickFilter visibleColumns (trimStr quickFilterText) row = true ↔
        ∃ col ∈ visibleColumns,
          containsCI (row col) (trimStr quickFilterText) = true) := by
  have hclauses : exportWhereClauses visibleColumns quickFilterText filterModel
      = quickFilterClause visibleColumns (trimStr quickFilterText)
        :: columnFilterClauses filterModel := by
    simp only [exportWhereClauses]
    rw [if_neg h1]
    rfl
  refine ⟨hclauses, ?_, ?_⟩
  · simp only [exportFilterSql, hclauses]
    rw [if_neg (by simp)]
  · intro row
    simp only [evalQuickFilter, List.any_eq_true]
    have h37 : Char.toLower '%' = '%' := by decide
    have hpat : (('%' :: (trimStr quickFilterText).toList ++ ['%']).map Char.toLower)
        = '%' :: (((trimStr quickFilterText).toList.map Char.toLower) ++ ['%']) := by
      simp [List.map_append, h37]
    have hnw : ∀ c ∈ (trimStr quickFilterText).toList.map Char.toLower,
        c ≠ '%' ∧ c ≠ '_' := by
      intro c hc
      rw [List.mem_map] at hc
      obtain ⟨d, hd, hdc⟩ := hc
      exact hdc ▸ h2 d hd
    constructor
    · rintro ⟨col, hcol, hmatch⟩
      refine ⟨col, hcol, ?_⟩
      rw [hpat, likeMatch_occursIn _ hnw] at hmatch
      exact hmatch
    · rintro ⟨col, hcol, hcontains⟩
      refine ⟨col, hcol, ?_⟩
      rw [hpat, likeMatch_occursIn _ hnw]
      exact hcontains

/-- Claim C5 (amended) at the spec's example: columns `[a, b]`, quick filter
`"x"`: the row `{a: "fox", b: "1"}` satisfies the clause and the row
`{a: "cat", b: "2"}` does not. -/
theorem quickFilter_clause_semantics_witness :
    evalQuickFilter ["a", "b"] (trimStr "x")
      (fun col => if col = "a" then "fox" else "1") = true ∧
    evalQuickFilter ["a", "b"] (trimStr "x")
      (fun col => if col = "a" then "cat" else "2") = false := by
  constructor
  · exact ((quickFilter_clause_semantics ["a", "b"] "x" [] "t"
      (by decide) (by decide)).2.2 _).mpr ⟨"a", by simp, by decide⟩
  · decide
